import Mathlib

/-!
Shallow embedding of `napari_time_slicer/_workflow.py`.

The `Workflow` class wraps a dict `_tasks : name → recipe`, where a recipe is
either a literal value (stored verbatim for non-callable inputs) or a tuple
`(function, bound_arg_0, …, bound_arg_k)`.  The `WorkflowManager` couples such
a graph to an external store of named layers (the napari viewer), each layer
carrying a data payload and a `workflow_valid` metadata flag.

Python values are modelled by `PyVal`; Python functions are indexed into a
function table `FuncTable` carrying their declared signature (for
`inspect.signature(...).bind` / `apply_defaults`) and their behaviour as a
Lean function returning `Except PyErr PyVal` (an `Except.error` models a
raised exception).  Python dicts are association lists with unique keys and
insertion order, matching dict iteration order; `dictSet` keeps the position
of an existing key, as Python dict assignment does.  Iterating over a recipe
(`for source in task`) is `taskIter`: a tuple yields its elements, a literal
string yields its one-character substrings, a literal array its elements, and
a non-iterable literal raises `TypeError`.  Unbounded Python recursion is
given a fuel parameter; running out of fuel models `RecursionError`.
-/

set_option maxHeartbeats 1000000

/-- Exceptions the embedded code can raise. -/
inductive PyErr where
  | keyError
  | typeError
  | indexError
  | recursionError
  | userError (code : Nat)
deriving DecidableEq

/-- Python values handled by the workflow code: strings (which double as
node-name references), integers, numeric arrays (image data), and function
objects referenced by an index into a function table. -/
inductive PyVal where
  | str (s : String)
  | int (n : Int)
  | arr (xs : List Int)
  | func (fid : Nat)
deriving DecidableEq

/-- A recipe stored in `Workflow._tasks`: either a literal (non-callable)
value stored verbatim, or the tuple `(function, bound_arg_0, …)`. -/
inductive PyTask where
  | literal (v : PyVal)
  | tuple (elems : List PyVal)
deriving DecidableEq

/-- Declared signature and behaviour of a Python function object.
`params` lists the declared parameters in order, with the declared default
where one exists. -/
structure FuncSpec where
  params : List (String × Option PyVal)
  call : List PyVal → Except PyErr PyVal

/-- The ambient table of Python function objects, indexed by `PyVal.func`. -/
abbrev FuncTable := Nat → FuncSpec

/-- The `_tasks` dict of a `Workflow`, in insertion order. -/
abbrev Graph := List (String × PyTask)

/-- Dict lookup on an association list (first binding wins; keys are unique
in any list built by `dictSet`). -/
def alookup {α : Type} : List (String × α) → String → Option α
  | [], _ => none
  | (k, v) :: rest, n => if k = n then some v else alookup rest n

/-- Keys of a dict, in insertion order. -/
def keysOf {α : Type} (g : List (String × α)) : List String :=
  g.map Prod.fst

/-- Dict assignment `d[name] = t`: replaces in place if the key exists
(keeping its position, as Python dicts do), else appends. -/
def dictSet (g : Graph) (name : String) (t : PyTask) : Graph :=
  if (alookup g name).isSome then
    g.map (fun p => (p.1, if p.1 = name then t else p.2))
  else g ++ [(name, t)]

/-- Python iteration `for source in task` over a stored recipe. -/
def taskIter : PyTask → Except PyErr (List PyVal)
  | .tuple es => .ok es
  | .literal (.str s) => .ok (s.data.map (fun c => .str (String.mk [c])))
  | .literal (.arr xs) => .ok (xs.map .int)
  | .literal (.int _) => .error .typeError
  | .literal (.func _) => .error .typeError

/-- The elements of an iterated recipe that are Python strings
(`isinstance(source, str)`), in iteration order. -/
def stringElems (es : List PyVal) : List String :=
  es.filterMap (fun v => match v with | .str s => some s | _ => none)

/-- Error-propagating cons on a binding in progress. -/
def bindOk (r : Except PyErr (List PyVal)) (v : PyVal) : Except PyErr (List PyVal) :=
  match r with
  | .error e => .error e
  | .ok vs => .ok (v :: vs)

/-- Filling one parameter that received no positional argument: a matching
keyword wins, else the declared default, else the parameter is missing and
binding fails with `TypeError`. -/
def bindMissing (kwargs : List (String × PyVal)) (pname : String)
    (dflt : Option PyVal) (r : Except PyErr (List PyVal)) :
    Except PyErr (List PyVal) :=
  match alookup kwargs pname with
  | some v => bindOk r v
  | none =>
    match dflt with
    | some d => bindOk r d
    | none => .error .typeError

/-- One parameter of `inspect.signature(...).bind(*args, **kwargs)` followed
by `apply_defaults()`: positional arguments fill parameters in declaration
order, then keywords, then declared defaults; missing required parameters,
excess positionals, and a keyword colliding with a positional raise
`TypeError`. -/
def signatureBindGo (args : List PyVal) (kwargs : List (String × PyVal)) :
    List (String × Option PyVal) → Except PyErr (List PyVal)
  | [] =>
    match args with
    | [] => .ok []
    | _ :: _ => .error .typeError
  | (pname, dflt) :: prest =>
    match args with
    | a :: arest =>
      if (alookup kwargs pname).isSome then .error .typeError
      else bindOk (signatureBindGo arest kwargs prest) a
    | [] => bindMissing kwargs pname dflt (signatureBindGo [] kwargs prest)

/-- `sig.bind(*args, **kwargs)` plus `apply_defaults()`: also rejects a
keyword argument that matches no declared parameter. -/
def signatureBind (params : List (String × Option PyVal)) (args : List PyVal)
    (kwargs : List (String × PyVal)) : Except PyErr (List PyVal) :=
  if kwargs.any (fun kv => params.all (fun p => p.1 != kv.1)) then .error .typeError
  else signatureBindGo args kwargs params

/-- `Workflow.set`: a non-callable is stored verbatim as a literal recipe;
a callable is bound against its declared signature with defaults applied and
stored as the tuple `(function, bound_arg_0, …)`, overwriting any prior
recipe for `name`. -/
def Workflow.set (FT : FuncTable) (g : Graph) (name : String)
    (func_or_data : PyVal) (args : List PyVal) (kwargs : List (String × PyVal)) :
    Except PyErr Graph :=
  match func_or_data with
  | .func fid =>
    match signatureBind (FT fid).params args kwargs with
    | .error e => .error e
    | .ok bound => .ok (dictSet g name (.tuple (.func fid :: bound)))
  | _ => .ok (dictSet g name (.literal func_or_data))

/-- `Workflow.remove`: drops the recipe if present, no-op otherwise. -/
def Workflow.remove (g : Graph) (name : String) : Graph :=
  g.filter (fun p => p.1 != name)

/-- `Workflow.get_task`: `self._tasks[name]`, raising `KeyError` if absent. -/
def Workflow.get_task (g : Graph) (name : String) : Except PyErr PyTask :=
  match alookup g name with
  | some t => .ok t
  | none => .error .keyError

/-- Inner accumulation of `Workflow.followers_of`: for each `(result, task)`
pair in dict order, if `item` occurs among the string elements of the task
and `result` is not yet collected, append it. -/
def Workflow.followersGo (item : String) : Graph → List String → Except PyErr (List String)
  | [], acc => .ok acc
  | (result, task) :: rest, acc =>
    match taskIter task with
    | .error e => .error e
    | .ok es =>
      if item ∈ stringElems es then
        if result ∈ acc then Workflow.followersGo item rest acc
        else Workflow.followersGo item rest (acc ++ [result])
      else Workflow.followersGo item rest acc

/-- `Workflow.followers_of`: all recipe names whose task mentions `item` as a
string element, each once, in dict order. -/
def Workflow.followers_of (g : Graph) (item : String) : Except PyErr (List String) :=
  Workflow.followersGo item g []

/-- `Workflow.sources_of`: the string elements of `item`'s recipe, or `[]`
when `item` has no recipe. -/
def Workflow.sources_of (g : Graph) (item : String) : Except PyErr (List String) :=
  match alookup g item with
  | none => .ok []
  | some task =>
    match taskIter task with
    | .error e => .error e
    | .ok es => .ok (stringElems es)

/-- Inner accumulation for `Workflow.roots`: append each string source that
is neither a dict key nor already collected. -/
def rootsAdd (ks : List String) : List String → List String → List String
  | acc, [] => acc
  | acc, s :: more =>
    if s ∈ ks then rootsAdd ks acc more
    else if s ∈ acc then rootsAdd ks acc more
    else rootsAdd ks (acc ++ [s]) more

/-- Outer loop of `Workflow.roots` over the `(result, task)` pairs. -/
def Workflow.rootsGo (ks : List String) : Graph → List String → Except PyErr (List String)
  | [], acc => .ok acc
  | (_, task) :: rest, acc =>
    match taskIter task with
    | .error e => .error e
    | .ok es => Workflow.rootsGo ks rest (rootsAdd ks acc (stringElems es))

/-- `Workflow.roots`: names referenced as a string source by some recipe but
having no recipe of their own, each once. -/
def Workflow.roots (g : Graph) : Except PyErr (List String) :=
  Workflow.rootsGo (keysOf g) g []

/-- Inner loop of `Workflow.leafs` over the dict keys. -/
def Workflow.leafsGo (g : Graph) : List String → Except PyErr (List String)
  | [] => .ok []
  | k :: rest =>
    match Workflow.followers_of g k with
    | .error e => .error e
    | .ok fl =>
      match Workflow.leafsGo g rest with
      | .error e => .error e
      | .ok ls => .ok (if fl.isEmpty then k :: ls else ls)

/-- `Workflow.leafs`: recipe names with no followers. -/
def Workflow.leafs (g : Graph) : Except PyErr (List String) :=
  Workflow.leafsGo g (keysOf g)

/-- Resolution of one argument list for the evaluator: a string argument that
names a graph member is evaluated through `ev`, any other value passes
through unchanged. -/
def resolveArgs (g : Graph) (ev : String → Except PyErr PyVal) :
    List PyVal → Except PyErr (List PyVal)
  | [] => .ok []
  | a :: rest =>
    match a with
    | .str s =>
      if (alookup g s).isSome then
        match ev s with
        | .error e => .error e
        | .ok v =>
          match resolveArgs g ev rest with
          | .error e => .error e
          | .ok vs => .ok (v :: vs)
      else
        match resolveArgs g ev rest with
        | .error e => .error e
        | .ok vs => .ok (a :: vs)
    | _ =>
      match resolveArgs g ev rest with
      | .error e => .error e
      | .ok vs => .ok (a :: vs)

/-- Modelled from the spec: `Workflow.get` delegates to `dask_get`, the task
scheduler of the external dask library, which is not part of this
repository's sources.  Following spec §4.2 (`evaluate(graph, name)`): a name
with no recipe fails with the `NotFound` error (`KeyError`); a literal recipe
is returned unchanged; a tuple recipe first resolves each string argument
that names a graph member by recursive evaluation (left to right), passes
other arguments through, then invokes the recorded function on the resolved
arguments. -/
def Workflow.get (FT : FuncTable) : Nat → Graph → String → Except PyErr PyVal
  | 0, _, _ => .error .recursionError
  | fuel+1, g, name =>
    match alookup g name with
    | none => .error .keyError
    | some (.literal v) => .ok v
    | some (.tuple []) => .error .typeError
    | some (.tuple (fv :: args)) =>
      match resolveArgs g (fun s => Workflow.get FT fuel g s) args with
      | .error e => .error e
      | .ok rargs =>
        match fv with
        | .func fid => (FT fid).call rargs
        | _ => .error .typeError

/-- One record of the external store (a napari layer): its data payload and
the `workflow_valid` entry of its metadata dict, absent when the key was
never set. -/
structure LayerRec where
  data : PyVal
  valid? : Option Bool
deriving DecidableEq

/-- The external store: the viewer's layers, keyed by layer name. -/
abbrev Store := List (String × LayerRec)

/-- State a `WorkflowManager` acts on: its task graph and the viewer's
layer store. -/
structure MgrState where
  workflow : Graph
  layers : Store
deriving DecidableEq

/-- Helper `_viewer_has_layer`: the store has a record under `name`. -/
def viewer_has_layer (layers : Store) (name : String) : Bool :=
  (alookup layers name).isSome

/-- Helper `_layer_invalid`: `layer.metadata["workflow_valid"] == False`,
with a missing metadata key caught (`KeyError`) and answered `False`. -/
def layer_invalid (ly : LayerRec) : Bool :=
  match ly.valid? with
  | some b => b == false
  | none => false

/-- Assignment `layer.metadata["workflow_valid"] = b` on the record stored
under `name` (no-op when absent, matching code paths that guard on
`_viewer_has_layer` first). -/
def setLayerValid (layers : Store) (name : String) (b : Bool) : Store :=
  layers.map (fun p => (p.1, if p.1 = name then { p.2 with valid? := some b } else p.2))

/-- Assignment `layer.data = v` on the record stored under `name`. -/
def setLayerData (layers : Store) (name : String) (v : PyVal) : Store :=
  layers.map (fun p => (p.1, if p.1 = name then { p.2 with data := v } else p.2))

/-- Loop body of `WorkflowManager.invalidate` over the given names, with
`rec'` standing for the recursive call one level deeper: a name with a
record gets its flag set to `False` and its followers invalidated
recursively; a name without a record is skipped entirely, followers
included. -/
def invalidateLoop (rec' : MgrState → List String → Except PyErr MgrState) :
    MgrState → List String → Except PyErr MgrState
  | st, [] => .ok st
  | st, f :: rest =>
    if viewer_has_layer st.layers f then
      let st1 : MgrState := { st with layers := setLayerValid st.layers f false }
      match Workflow.followers_of st1.workflow f with
      | .error e => .error e
      | .ok fls =>
        match rec' st1 fls with
        | .error e => .error e
        | .ok st2 => invalidateLoop rec' st2 rest
    else invalidateLoop rec' st rest

/-- `WorkflowManager.invalidate`, with fuel bounding the recursion depth as
Python's recursion limit does. -/
def invalidate : Nat → MgrState → List String → Except PyErr MgrState
  | 0, _, _ => .error .recursionError
  | fuel+1, st, items => invalidateLoop (invalidate fuel) st items

/-- First loop of `_search_first_invalid_layer`: return the first name in
the list whose record exists and is invalid. -/
def searchLoop1 (layers : Store) : List String → Option String
  | [] => none
  | i :: rest =>
    match alookup layers i with
    | some ly => if layer_invalid ly then some i else searchLoop1 layers rest
    | none => searchLoop1 layers rest

/-- Second loop of `_search_first_invalid_layer`: for each name in order,
search its followers recursively through `srch`; the first hit wins. -/
def searchLoop2 (st : MgrState) (srch : List String → Except PyErr (Option String)) :
    List String → Except PyErr (Option String)
  | [] => .ok none
  | i :: rest =>
    match Workflow.followers_of st.workflow i with
    | .error e => .error e
    | .ok fls =>
      match srch fls with
      | .error e => .error e
      | .ok (some x) => .ok (some x)
      | .ok none => searchLoop2 st srch rest

/-- `WorkflowManager._search_first_invalid_layer` (returning the found
layer's name): check every given name first, then recurse into each name's
followers in order. -/
def search_first_invalid_layer (st : MgrState) : Nat → List String → Except PyErr (Option String)
  | 0, _ => .error .recursionError
  | fuel+1, items =>
    match searchLoop1 st.layers items with
    | some n => .ok (some n)
    | none => searchLoop2 st (fun l => search_first_invalid_layer st fuel l) items

/-- Argument substitution in `WorkflowManager._compute`: a string argument
naming an existing layer is replaced by that layer's data. -/
def substituteArgs (layers : Store) : List PyVal → List PyVal
  | [] => []
  | a :: rest =>
    (match a with
     | .str s =>
       match alookup layers s with
       | some ly => ly.data
       | none => a
     | _ => a) :: substituteArgs layers rest

/-- `WorkflowManager._compute`: fetch the task, iterate it into a list, take
the head as the function and the tail as arguments, substitute layer data
for string arguments that name existing layers, and call the function. -/
def compute (FT : FuncTable) (st : MgrState) (name : String) : Except PyErr PyVal :=
  match Workflow.get_task st.workflow name with
  | .error e => .error e
  | .ok task =>
    match taskIter task with
    | .error e => .error e
    | .ok [] => .error .indexError
    | .ok (fv :: args) =>
      match fv with
      | .func fid => (FT fid).call (substituteArgs st.layers args)
      | _ => .error .typeError

/-- `WorkflowManager._update_invalid_layer`, the background scan-and-
recompute step: find the first invalid layer from the roots; if none,
return `None`; else recompute it, assign the result (through `np.asarray`,
modelled as the identity) directly to `layer.data`, and return `None`.  The
second component of the result is the value the generator yields to the
foreground callback: the code returns `None` on every path. -/
def update_invalid_layer (FT : FuncTable) (fuel : Nat) (st : MgrState) :
    Except PyErr (MgrState × Option (String × PyVal)) :=
  match Workflow.roots st.workflow with
  | .error e => .error e
  | .ok rts =>
    match search_first_invalid_layer st fuel rts with
    | .error e => .error e
    | .ok none => .ok (st, none)
    | .ok (some name) =>
      match compute FT st name with
      | .error e => .error e
      | .ok v => .ok ({ st with layers := setLayerData st.layers name v }, none)

/-- The foreground callback `update_layer` connected to the worker's
`yielded` signal: on a non-`None` message `(name, data)`, re-check that the
layer still exists and, if so, replace its data; otherwise do nothing. -/
def update_layer (layers : Store) (whatever : Option (String × PyVal)) : Store :=
  match whatever with
  | none => layers
  | some (name, d) =>
    if viewer_has_layer layers name then setLayerData layers name d else layers

/-- The background generator `loop_run`, iterated for a given number of
ticks: each tick runs `_update_invalid_layer` and yields its result; an
exception escaping the step is not caught anywhere, so it ends the loop,
which is reported as the second component (the state stops evolving at the
tick that raised). -/
def loop_run (FT : FuncTable) (fuel : Nat) : Nat → MgrState → MgrState × Option PyErr
  | 0, st => (st, none)
  | ticks+1, st =>
    match update_invalid_layer FT fuel st with
    | .error e => (st, some e)
    | .ok (st', _) => loop_run FT fuel ticks st'

/-- Loop body of `WorkflowManager._layer_data_updated` over the followers of
the updated layer: each follower that has a record triggers
`invalidate(followers_of(follower))`; the follower's own flag is never
written (the fetched `layer` variable is unused in the source). -/
def layerDataUpdatedLoop (fuel : Nat) : MgrState → List String → Except PyErr MgrState
  | st, [] => .ok st
  | st, f :: rest =>
    if viewer_has_layer st.layers f then
      match Workflow.followers_of st.workflow f with
      | .error e => .error e
      | .ok ffls =>
        match invalidate fuel st ffls with
        | .error e => .error e
        | .ok st' => layerDataUpdatedLoop fuel st' rest
    else layerDataUpdatedLoop fuel st rest

/-- `WorkflowManager._layer_data_updated`: the event source's own flag is
set to `True`, then each of its followers with a record has its followers
invalidated. -/
def layer_data_updated (fuel : Nat) (st : MgrState) (source : String) :
    Except PyErr MgrState :=
  let st1 : MgrState := { st with layers := setLayerValid st.layers source true }
  match Workflow.followers_of st1.workflow source with
  | .error e => .error e
  | .ok fls => layerDataUpdatedLoop fuel st1 fls

/-- Per-name check of the scan's first loop as a single predicate: the name
has a record and that record is invalid. -/
def layerInvalidAt (layers : Store) (i : String) : Bool :=
  match alookup layers i with
  | some ly => layer_invalid ly
  | none => false

/-- Total wrapper of `Workflow.followers_of` used only by the claim-side
scan description below. -/
def followersOfD (g : Graph) (i : String) : List String :=
  match Workflow.followers_of g i with
  | .ok l => l
  | .error _ => []

/-- Follows the claim text, for comparison with the code's scan: a
breadth-first sweep by layers from the given names, where each layer is
checked for an invalid record first, and the next layer is the union of the
followers of the names of the layer that have a record — names without
records contribute nothing. -/
def claimScanBFS (st : MgrState) : Nat → List String → Option String
  | 0, _ => none
  | fuel+1, layer =>
    match searchLoop1 st.layers layer with
    | some n => some n
    | none =>
      match ((layer.filter (fun i => viewer_has_layer st.layers i)).flatMap
          (fun i => followersOfD st.workflow i)).dedup with
      | [] => none
      | next => claimScanBFS st fuel next

/-- Marking a record invalid, as `invalidate` does record by record. -/
def markInvalid (ly : LayerRec) : LayerRec :=
  { ly with valid? := some false }

/-- Reachability along `followers_of` edges through record-bearing nodes
only: every node on the path, endpoints included, has a record in the
store. -/
inductive RecReach (g : Graph) (layers : Store) : String → String → Prop
  | refl (s : String) : viewer_has_layer layers s = true → RecReach g layers s s
  | step (s m n : String) (l : List String) :
      viewer_has_layer layers s = true →
      Workflow.followers_of g s = .ok l → m ∈ l →
      RecReach g layers m n → RecReach g layers s n

/-- Manager-side call of `Workflow.roots`, threading the manager state to
record that the query leaves it untouched. -/
def rootsM (st : MgrState) : Except PyErr (List String × MgrState) :=
  match Workflow.roots st.workflow with
  | .error e => .error e
  | .ok r => .ok (r, st)

/-- Manager-side call of `Workflow.followers_of`, threading the state. -/
def followers_ofM (st : MgrState) (i : String) : Except PyErr (List String × MgrState) :=
  match Workflow.followers_of st.workflow i with
  | .error e => .error e
  | .ok r => .ok (r, st)

/-- Manager-side call of `Workflow.sources_of`, threading the state. -/
def sources_ofM (st : MgrState) (i : String) : Except PyErr (List String × MgrState) :=
  match Workflow.sources_of st.workflow i with
  | .error e => .error e
  | .ok r => .ok (r, st)

/-- Manager-side call of `Workflow.leafs`, threading the state. -/
def leafsM (st : MgrState) : Except PyErr (List String × MgrState) :=
  match Workflow.leafs st.workflow with
  | .error e => .error e
  | .ok r => .ok (r, st)

/-- Manager-side call of `Workflow.get_task`, threading the state. -/
def get_taskM (st : MgrState) (name : String) : Except PyErr (PyTask × MgrState) :=
  match Workflow.get_task st.workflow name with
  | .error e => .error e
  | .ok t => .ok (t, st)

/-- A concrete unary function doubling an array, for concrete runs. -/
def exDouble : FuncSpec where
  params := [("x", none)]
  call := fun args =>
    match args with
    | [.arr xs] => .ok (.arr (xs.map (fun v => 2 * v)))
    | _ => .error .typeError

/-- A concrete function that raises on every call. -/
def exRaise : FuncSpec where
  params := [("x", none)]
  call := fun _ => .error (.userError 7)

/-- A concrete binary function whose second parameter has default `5`. -/
def exDefaults : FuncSpec where
  params := [("x", none), ("y", some (.int 5))]
  call := fun _ => .ok (.int 0)

/-- A concrete function table for concrete runs. -/
def exFT : FuncTable := fun fid =>
  if fid = 0 then exDouble else if fid = 1 then exRaise else exDefaults

/-- Chain `a → m → p` by recipes on `m` and `p`. -/
def exG1 : Graph :=
  [("m", .tuple [.func 0, .str "a"]), ("p", .tuple [.func 0, .str "m"])]

/-- Store for the chain: records for `a` and `p`, both valid, but none for
the intermediate `m`. -/
def exSt1 : MgrState where
  workflow := exG1
  layers := [("a", ⟨.arr [1], some true⟩), ("p", ⟨.arr [3], some true⟩)]

/-- Expected state after `invalidate(["a"])` on `exSt1`: only `a` flipped. -/
def exSt1' : MgrState where
  workflow := exG1
  layers := [("a", ⟨.arr [1], some false⟩), ("p", ⟨.arr [3], some true⟩)]

/-- Single edge `a → b` by a recipe on `b`. -/
def exG2 : Graph := [("b", .tuple [.func 0, .str "a"])]

/-- Store with an invalid record for `b` and no record for the root `a`. -/
def exSt2 : MgrState where
  workflow := exG2
  layers := [("b", ⟨.arr [2], some false⟩)]

/-- Store for `exG2` with records for both `a` (valid) and `b` (invalid). -/
def exSt3 : MgrState where
  workflow := exG2
  layers := [("a", ⟨.arr [1, 2, 3], some true⟩), ("b", ⟨.arr [0], some false⟩)]

/-- Expected state after one background step on `exSt3`: `b`'s data was
overwritten in place with `double(a)`; its flag is untouched. -/
def exSt3' : MgrState where
  workflow := exG2
  layers := [("a", ⟨.arr [1, 2, 3], some true⟩), ("b", ⟨.arr [2, 4, 6], some false⟩)]

/-- Edge `a → b` where `b`'s recorded function raises on every call. -/
def exG4 : Graph := [("b", .tuple [.func 1, .str "a"])]

/-- Store for `exG4`: valid `a`, invalid `b` awaiting recompute. -/
def exSt4 : MgrState where
  workflow := exG4
  layers := [("a", ⟨.arr [1], some true⟩), ("b", ⟨.arr [0], some false⟩)]

/-- Store for `exG2` where `b`'s record has no validity flag at all. -/
def exSt5 : MgrState where
  workflow := exG2
  layers := [("a", ⟨.arr [1], some true⟩), ("b", ⟨.arr [0], none⟩)]

/-- Same as `exSt5` with `b`'s flag explicitly `False`. -/
def exSt5f : MgrState where
  workflow := exG2
  layers := [("a", ⟨.arr [1], some true⟩), ("b", ⟨.arr [0], some false⟩)]

/-- Store for `exG2` with records for `a` and `b`, both valid. -/
def exSt6 : MgrState where
  workflow := exG2
  layers := [("a", ⟨.arr [1], some true⟩), ("b", ⟨.arr [2], some true⟩)]

/-- One literal recipe, for the evaluator checks. -/
def exG7 : Graph := [("x", .literal (.int 5))]

/-- A graph holding a prior (literal) recipe for `n`, to be overwritten. -/
def exC8G : Graph := [("n", .literal (.int 9))]

/-- The graph after `set("n", f2, 1)` on `exC8G`, with `f2`'s default for
`y` filled in. -/
def exC8G' : Graph := [("n", .tuple [.func 2, .int 1, .int 5])]

/-- How one `invalidate` run can change the manager state: the graph is
untouched and each record is either untouched or marked invalid. -/
def StoreEvol (st st' : MgrState) : Prop :=
  st'.workflow = st.workflow ∧
  ∀ x, alookup st'.layers x = alookup st.layers x ∨
       alookup st'.layers x = (alookup st.layers x).map markInvalid

theorem alookup_mem {α : Type} {g : List (String × α)} {k : String} {v : α}
    (h : alookup g k = some v) : (k, v) ∈ g := by
  induction g with
  | nil => simp [alookup] at h
  | cons p rest ih =>
    obtain ⟨k', v'⟩ := p
    by_cases hk : k' = k
    · subst hk
      simp [alookup] at h
      simp [h]
    · simp [alookup, hk] at h
      exact List.mem_cons_of_mem _ (ih h)

theorem mem_alookup {α : Type} {g : List (String × α)} (hnd : (keysOf g).Nodup)
    {k : String} {v : α} (h : (k, v) ∈ g) : alookup g k = some v := by
  induction g with
  | nil => simp at h
  | cons p rest ih =>
    obtain ⟨k', v'⟩ := p
    simp [keysOf] at hnd
    rcases List.mem_cons.mp h with heq | hmem
    · cases heq
      simp [alookup]
    · have hk : k' ≠ k := by
        intro hkk
        subst hkk
        exact hnd.1 v (by simpa using hmem)
      have : (keysOf rest).Nodup := by simpa [keysOf] using hnd.2
      simp [alookup, hk]
      exact ih this hmem

theorem setLayerValid_lookup_self (L : Store) (name : String) (b : Bool) :
    alookup (setLayerValid L name b) name
      = (alookup L name).map (fun ly => { ly with valid? := some b }) := by
  induction L with
  | nil => rfl
  | cons p rest ih =>
    obtain ⟨k, v⟩ := p
    simp only [setLayerValid, List.map_cons] at ih ⊢
    by_cases hk : k = name
    · subst hk
      simp [alookup]
    · simp [alookup, hk, ih]

theorem setLayerValid_lookup_ne (L : Store) (name x : String) (b : Bool)
    (h : x ≠ name) :
    alookup (setLayerValid L name b) x = alookup L x := by
  induction L with
  | nil => rfl
  | cons p rest ih =>
    obtain ⟨k, v⟩ := p
    simp only [setLayerValid, List.map_cons] at ih ⊢
    by_cases hk : k = x
    · subst hk
      simp [alookup, h, Ne.symm h]
    · simp [alookup, hk, ih]

theorem setLayerValid_isSome (L : Store) (name : String) (b : Bool) (x : String) :
    (alookup (setLayerValid L name b) x).isSome = (alookup L x).isSome := by
  by_cases hx : x = name
  · subst hx
    rw [setLayerValid_lookup_self]
    cases alookup L x <;> rfl
  · rw [setLayerValid_lookup_ne L name x b hx]

theorem storeEvol_refl (st : MgrState) : StoreEvol st st :=
  ⟨rfl, fun _ => Or.inl rfl⟩

theorem storeEvol_trans {st st' st'' : MgrState}
    (h1 : StoreEvol st st') (h2 : StoreEvol st' st'') : StoreEvol st st'' := by
  refine ⟨h2.1.trans h1.1, fun x => ?_⟩
  rcases h2.2 x with h | h <;> rcases h1.2 x with h' | h'
  · exact Or.inl (h.trans h')
  · exact Or.inr (h.trans h')
  · exact Or.inr (h ▸ congrArg (Option.map markInvalid) h')
  · refine Or.inr ?_
    rw [h, h', Option.map_map]
    have : markInvalid ∘ markInvalid = markInvalid := by
      funext ly
      rfl
    rw [this]

theorem storeEvol_set (st : MgrState) (f : String) :
    StoreEvol st { st with layers := setLayerValid st.layers f false } := by
  refine ⟨rfl, fun x => ?_⟩
  by_cases hx : x = f
  · subst hx
    refine Or.inr ?_
    simpa [markInvalid] using setLayerValid_lookup_self st.layers x false
  · exact Or.inl (setLayerValid_lookup_ne st.layers f x false hx)

theorem storeEvol_hasLayer {st st' : MgrState} (h : StoreEvol st st') (x : String) :
    viewer_has_layer st'.layers x = viewer_has_layer st.layers x := by
  unfold viewer_has_layer
  rcases h.2 x with h' | h'
  · rw [h']
  · rw [h']
    cases alookup st.layers x <;> rfl

theorem storeEvol_false {st st' : MgrState} (h : StoreEvol st st') {x : String}
    {ly : LayerRec} (hx : alookup st.layers x = some ly) (hv : ly.valid? = some false) :
    ∃ ly', alookup st'.layers x = some ly' ∧ ly'.valid? = some false := by
  rcases h.2 x with h' | h'
  · exact ⟨ly, by rw [h', hx], hv⟩
  · exact ⟨markInvalid ly, by rw [h', hx]; rfl, rfl⟩

theorem invalidateLoop_evol
    {rec' : MgrState → List String → Except PyErr MgrState}
    (hrec : ∀ st items st', rec' st items = .ok st' → StoreEvol st st') :
    ∀ items st st', invalidateLoop rec' st items = .ok st' → StoreEvol st st' := by
  intro items
  induction items with
  | nil =>
    intro st st' h
    cases h
    exact storeEvol_refl st
  | cons f rest ih =>
    intro st st' h
    rw [invalidateLoop] at h
    by_cases hhas : viewer_has_layer st.layers f
    · rw [if_pos hhas] at h
      cases hfol : Workflow.followers_of st.workflow f with
      | error e => simp [hfol] at h
      | ok fls =>
        simp only [hfol] at h
        cases hrc : rec' { st with layers := setLayerValid st.layers f false } fls with
        | error e => simp [hrc] at h
        | ok st2 =>
          simp only [hrc] at h
          exact storeEvol_trans (storeEvol_trans (storeEvol_set st f) (hrec _ _ _ hrc)) (ih _ _ h)
    · rw [if_neg hhas] at h
      exact ih _ _ h

theorem invalidate_evol :
    ∀ fuel st items st', invalidate fuel st items = .ok st' → StoreEvol st st' := by
  intro fuel
  induction fuel with
  | zero =>
    intro st items st' h
    simp [invalidate] at h
  | succ fuel ih =>
    intro st items st' h
    rw [invalidate] at h
    exact invalidateLoop_evol (fun st i st' h' => ih st i st' h') items st st' h

theorem recReach_hasLayer {g : Graph} {layers : Store} {s n : String}
    (h : RecReach g layers s n) : viewer_has_layer layers s = true := by
  cases h with
  | refl _ hs => exact hs
  | step _ _ _ _ hs _ _ _ => exact hs

theorem recReach_transfer {g : Graph} {layers layers' : Store}
    (hkeys : ∀ x, viewer_has_layer layers' x = viewer_has_layer layers x)
    {s n : String} (h : RecReach g layers s n) : RecReach g layers' s n := by
  induction h with
  | refl s hs => exact RecReach.refl s ((hkeys s).trans hs)
  | step s m n l hs hf hm _ ih =>
    exact RecReach.step s m n l ((hkeys s).trans hs) hf hm ih

theorem layer_invalid_valid {ly : LayerRec} (h : layer_invalid ly = true) :
    ly.valid? = some false := by
  unfold layer_invalid at h
  cases hv : ly.valid? with
  | none => rw [hv] at h; cases h
  | some b =>
    rw [hv] at h
    cases b
    · rfl
    · cases h

theorem searchLoop1_some {layers : Store} :
    ∀ {items : List String} {n : String}, searchLoop1 layers items = some n →
      ∃ ly, alookup layers n = some ly ∧ layer_invalid ly = true := by
  intro items
  induction items with
  | nil => intro n h; cases h
  | cons i rest ih =>
    intro n h
    rw [searchLoop1] at h
    cases hl : alookup layers i with
    | none =>
      simp only [hl] at h
      exact ih h
    | some ly =>
      simp only [hl] at h
      by_cases hinv : layer_invalid ly = true
      · rw [if_pos hinv] at h
        cases h
        exact ⟨ly, hl, hinv⟩
      · rw [if_neg hinv] at h
        exact ih h

theorem searchLoop1_none {layers : Store} :
    ∀ {items : List String}, (∀ j ∈ items, layerInvalidAt layers j = false) →
      searchLoop1 layers items = none := by
  intro items
  induction items with
  | nil => intro _; rfl
  | cons i rest ih =>
    intro h
    have hi := h i (List.mem_cons_self i rest)
    rw [searchLoop1]
    cases hl : alookup layers i with
    | none =>
      simp only [hl]
      exact ih (fun j hj => h j (List.mem_cons_of_mem i hj))
    | some ly =>
      have hly : layer_invalid ly = false := by
        unfold layerInvalidAt at hi
        rw [hl] at hi
        exact hi
      simp only [hl, hly, Bool.false_eq_true, if_false]
      exact ih (fun j hj => h j (List.mem_cons_of_mem i hj))

theorem searchLoop2_selects {st : MgrState}
    {srch : List String → Except PyErr (Option String)}
    (hs : ∀ l n, srch l = .ok (some n) →
      ∃ ly, alookup st.layers n = some ly ∧ ly.valid? = some false) :
    ∀ {items : List String} {n : String}, searchLoop2 st srch items = .ok (some n) →
      ∃ ly, alookup st.layers n = some ly ∧ ly.valid? = some false := by
  intro items
  induction items with
  | nil => intro n h; cases h
  | cons i rest ih =>
    intro n h
    rw [searchLoop2] at h
    cases hf : Workflow.followers_of st.workflow i with
    | error e => simp only [hf] at h; cases h
    | ok fls =>
      simp only [hf] at h
      cases hr : srch fls with
      | error e => simp only [hr] at h; cases h
      | ok o =>
        cases o with
        | none =>
          simp only [hr] at h
          exact ih h
        | some x =>
          simp only [hr] at h
          cases h
          exact hs fls n hr

theorem search_selects_invalid :
    ∀ {fuel : Nat} {st : MgrState} {items : List String} {n : String},
      search_first_invalid_layer st fuel items = .ok (some n) →
      ∃ ly, alookup st.layers n = some ly ∧ ly.valid? = some false := by
  intro fuel
  induction fuel with
  | zero => intro st items n h; cases h
  | succ fuel ih =>
    intro st items n h
    rw [search_first_invalid_layer] at h
    cases h1 : searchLoop1 st.layers items with
    | some m =>
      rw [h1] at h
      cases h
      obtain ⟨ly, hly, hinv⟩ := searchLoop1_some h1
      exact ⟨ly, hly, layer_invalid_valid hinv⟩
    | none =>
      rw [h1] at h
      exact searchLoop2_selects (fun l m hm => ih hm) h

/-- C1 counterexample: in the chain `a → m → p` where `a` and `p` have
records but the intermediate `m` does not, `invalidate(["a"])` leaves `p`'s
validity flag `True`, although `p` is reachable from `a` via `followers_of*`
and has a record — the recursion stops at the record-less `m`, so the claim
that invalidation recurses through record-less nodes fails on this input. -/
theorem c1_counterexample :
    Workflow.followers_of exG1 "a" = .ok ["m"] ∧
    Workflow.followers_of exG1 "m" = .ok ["p"] ∧
    viewer_has_layer exSt1.layers "m" = false ∧
    viewer_has_layer exSt1.layers "p" = true ∧
    invalidate 9 exSt1 ["a"] = .ok exSt1' ∧
    alookup exSt1'.layers "p" = some ⟨.arr [3], some true⟩ :=
  ⟨rfl, rfl, rfl, rfl, rfl, rfl⟩

/-- C1 (amended): after `invalidate(S)`, every node `n` reachable from some
`s ∈ S` along a `followers_of*` path on which every node (endpoints
included) has an external record ends up with its validity flag `False`;
descendants reachable only through record-less intermediate nodes are not
covered, since the recursion skips names without a record entirely. -/
theorem c1_amended :
    ∀ fuel st items st' s n, invalidate fuel st items = .ok st' → s ∈ items →
      RecReach st.workflow st.layers s n →
      ∃ ly, alookup st'.layers n = some ly ∧ ly.valid? = some false := by
  intro fuel
  induction fuel with
  | zero =>
    intro st items st' s n h _ _
    simp [invalidate] at h
  | succ fuel ih =>
    have main : ∀ items st st' s n,
        invalidateLoop (invalidate fuel) st items = .ok st' → s ∈ items →
        RecReach st.workflow st.layers s n →
        ∃ ly, alookup st'.layers n = some ly ∧ ly.valid? = some false := by
      intro items
      induction items with
      | nil =>
        intro st st' s n _ hs _
        exact absurd hs (List.not_mem_nil s)
      | cons f rest ihl =>
        intro st st' s n h hs hr
        rw [invalidateLoop] at h
        by_cases hhas : viewer_has_layer st.layers f = true
        · rw [if_pos hhas] at h
          cases hfol : Workflow.followers_of st.workflow f with
          | error e => simp only [hfol] at h; cases h
          | ok fls =>
            simp only [hfol] at h
            cases hrc : invalidate fuel { st with layers := setLayerValid st.layers f false } fls with
            | error e => simp only [hrc] at h; cases h
            | ok st2 =>
              simp only [hrc] at h
              have hev12 : StoreEvol { st with layers := setLayerValid st.layers f false } st2 :=
                invalidate_evol fuel _ fls st2 hrc
              have hev2' : StoreEvol st2 st' :=
                invalidateLoop_evol (fun a b c hh => invalidate_evol fuel a b c hh) rest st2 st' h
              rcases List.mem_cons.mp hs with hsf | hsrest
              · subst hsf
                cases hr with
                | refl _ hhl =>
                  obtain ⟨ly0, hly0⟩ := Option.isSome_iff_exists.mp
                    (by simpa [viewer_has_layer] using hhas)
                  have h1 : alookup (setLayerValid st.layers s false) s
                      = some (markInvalid ly0) := by
                    rw [setLayerValid_lookup_self, hly0]
                    rfl
                  obtain ⟨ly2, hly2, hv2⟩ := storeEvol_false hev12 h1 rfl
                  exact storeEvol_false hev2' hly2 hv2
                | step _ m _ l hhl hfol' hm hr' =>
                  have hfls : l = fls := by
                    have := hfol'.symm.trans hfol
                    injection this
                  have hkeys : ∀ x, viewer_has_layer (setLayerValid st.layers s false) x
                      = viewer_has_layer st.layers x := by
                    intro x
                    unfold viewer_has_layer
                    rw [setLayerValid_isSome]
                  have hr1 : RecReach st.workflow (setLayerValid st.layers s false) m n :=
                    recReach_transfer hkeys hr'
                  obtain ⟨ly2, hly2, hv2⟩ :=
                    ih { st with layers := setLayerValid st.layers s false } fls st2 m n
                      hrc (hfls ▸ hm) hr1
                  exact storeEvol_false hev2' hly2 hv2
              · have hkeys1 : ∀ x, viewer_has_layer st2.layers x
                    = viewer_has_layer st.layers x := by
                  intro x
                  rw [storeEvol_hasLayer hev12 x]
                  unfold viewer_has_layer
                  rw [setLayerValid_isSome]
                have hw2 : st2.workflow = st.workflow := hev12.1
                have hr2 : RecReach st2.workflow st2.layers s n := by
                  rw [hw2]
                  exact recReach_transfer hkeys1 hr
                exact ihl st2 st' s n h hsrest hr2
        · rw [if_neg hhas] at h
          rcases List.mem_cons.mp hs with hsf | hsrest
          · subst hsf
            exact absurd (recReach_hasLayer hr) hhas
          · exact ihl st st' s n h hsrest hr
    intro st items st' s n h hs hr
    rw [invalidate] at h
    exact main items st st' s n h hs hr

/-- C1 witness: the amended theorem applied to the concrete chain state,
with `a` itself as the reachable node. -/
theorem c1_witness :
    ∃ ly, alookup exSt1'.layers "a" = some ly ∧ ly.valid? = some false :=
  c1_amended 9 exSt1 ["a"] exSt1' "a" "a" rfl (List.mem_cons_self "a" [])
    (RecReach.refl "a" rfl)

/-- C2 counterexample: with `b = f(a)` recorded, `b`'s record present and
invalid, and no record for the root `a`, the claimed breadth-first scan
(where record-less names are dead ends) finds nothing, yet the code's scan
selects `b`: the record-less `a` does contribute its followers. -/
theorem c2_counterexample :
    Workflow.roots exG2 = .ok ["a"] ∧
    viewer_has_layer exSt2.layers "a" = false ∧
    Workflow.followers_of exG2 "a" = .ok ["b"] ∧
    search_first_invalid_layer exSt2 5 ["a"] = .ok (some "b") ∧
    claimScanBFS exSt2 5 ["a"] = none :=
  ⟨rfl, rfl, rfl, rfl, rfl⟩

/-- C2 (amended): the scan checks every name of the current list in order
and selects the first whose record exists and is invalid; when no name
qualifies, it recurses into each name's followers in list order — record-
less names included — and the first hit of the earliest name's subtree
wins (per-item depth-first, not breadth-first by layer). -/
theorem c2_amended :
    (∀ (st : MgrState) (fuel : Nat) (pre : List String) (i : String) (post : List String),
      (∀ j ∈ pre, layerInvalidAt st.layers j = false) →
      layerInvalidAt st.layers i = true →
      search_first_invalid_layer st (fuel+1) (pre ++ i :: post) = .ok (some i)) ∧
    (∀ (st : MgrState) (fuel : Nat) (i : String) (rest fls : List String) (x : String),
      (∀ j ∈ i :: rest, layerInvalidAt st.layers j = false) →
      Workflow.followers_of st.workflow i = .ok fls →
      search_first_invalid_layer st fuel fls = .ok (some x) →
      search_first_invalid_layer st (fuel+1) (i :: rest) = .ok (some x)) := by
  constructor
  · intro st fuel pre i post hpre hi
    have h1 : searchLoop1 st.layers (pre ++ i :: post) = some i := by
      induction pre with
      | nil =>
        rw [List.nil_append, searchLoop1]
        unfold layerInvalidAt at hi
        cases hl : alookup st.layers i with
        | none => simp only [hl] at hi; cases hi
        | some ly =>
          simp only [hl] at hi
          simp only [hl, if_pos hi]
      | cons p pre' ihp =>
        have hp := hpre p (List.mem_cons_self p pre')
        rw [List.cons_append, searchLoop1]
        unfold layerInvalidAt at hp
        cases hl : alookup st.layers p with
        | none =>
          simp only [hl]
          exact ihp (fun j hj => hpre j (List.mem_cons_of_mem p hj))
        | some ly =>
          simp only [hl] at hp
          simp only [hl, hp, Bool.false_eq_true, if_false]
          exact ihp (fun j hj => hpre j (List.mem_cons_of_mem p hj))
    rw [search_first_invalid_layer]
    simp only [h1]
  · intro st fuel i rest fls x hnone hfol hsub
    have h1 : searchLoop1 st.layers (i :: rest) = none := searchLoop1_none hnone
    rw [search_first_invalid_layer]
    simp only [h1]
    rw [searchLoop2]
    simp only [hfol, hsub]

/-- C2 witness: the amended scan characterisation applied to the concrete
edge `a → b`: the first-loop selection when `b` itself is in the list, and
the subtree recursion through the record-less `a`. -/
theorem c2_witness :
    search_first_invalid_layer exSt2 1 ["b"] = .ok (some "b") ∧
    search_first_invalid_layer exSt2 5 ["a"] = .ok (some "b") := by
  constructor
  · exact c2_amended.1 exSt2 0 [] "b" []
      (fun j hj => absurd hj (List.not_mem_nil j)) rfl
  · exact c2_amended.2 exSt2 4 "a" [] ["b"] "b" (by decide) rfl rfl

/-- C3 (code bug, evaluated at the failing input): with `b = double(a)`
invalid and both records present, the background step writes the recomputed
payload directly into the store (`b` becomes `[2,4,6]`) and yields `None`
every time; the foreground `update_layer` callback — which was written to
unpack a `(name, data)` pair and re-check the record before applying it —
therefore never receives a result, and on the `None` it does receive it
leaves the store untouched. -/
theorem c3_theorem :
    update_invalid_layer exFT 9 exSt3 = .ok (exSt3', none) ∧
    exSt3'.layers ≠ exSt3.layers ∧
    update_layer exSt3.layers none = exSt3.layers :=
  ⟨rfl, by decide, rfl⟩

/-- C4 counterexample: with `b = raise(a)` recorded and `b` invalid, running
the background loop for three ticks crashes at the first tick: the user
exception escapes uncaught and ends the run, with the state unchanged and
`b` still flagged invalid. -/
theorem c4_counterexample :
    loop_run exFT 9 3 exSt4 = (exSt4, some (.userError 7)) ∧
    alookup exSt4.layers "b" = some ⟨.arr [0], some false⟩ :=
  ⟨rfl, rfl⟩

/-- C4 (amended): when the selected node's function raises during the
background recompute, nothing catches the failure: the loop run ends at
that very tick with the raised error and the state unmodified — the node's
flag is indeed still `False` (the scan only selects explicitly invalid
records), but the loop does not continue ticking. -/
theorem c4_amended :
    ∀ (FT : FuncTable) (fuel : Nat) (st : MgrState) (rts : List String)
      (name : String) (e : PyErr) (n : Nat),
      Workflow.roots st.workflow = .ok rts →
      search_first_invalid_layer st fuel rts = .ok (some name) →
      compute FT st name = .error e →
      loop_run FT fuel (n+1) st = (st, some e) ∧
      ∃ ly, alookup st.layers name = some ly ∧ ly.valid? = some false := by
  intro FT fuel st rts name e n hroots hsearch hcomp
  have hupd : update_invalid_layer FT fuel st = .error e := by
    unfold update_invalid_layer
    simp only [hroots, hsearch, hcomp]
  constructor
  · rw [loop_run]
    simp only [hupd]
  · exact search_selects_invalid hsearch

/-- C4 witness: the amended statement at the concrete raising recipe. -/
theorem c4_witness :
    loop_run exFT 9 1 exSt4 = (exSt4, some (.userError 7)) ∧
    ∃ ly, alookup exSt4.layers "b" = some ly ∧ ly.valid? = some false :=
  c4_amended exFT 9 exSt4 ["a"] "b" (.userError 7) 0 rfl rfl rfl

/-- C5 counterexample: a record whose metadata has no validity key is not
treated like one flagged `False`: `_layer_invalid` answers `False` on it
and the background scan passes over it, while the same store with the flag
explicitly `False` gets the record selected. -/
theorem c5_counterexample :
    layer_invalid ⟨.arr [0], none⟩ = false ∧
    layer_invalid ⟨.arr [0], some false⟩ = true ∧
    search_first_invalid_layer exSt5 5 ["a"] = .ok none ∧
    search_first_invalid_layer exSt5f 5 ["a"] = .ok (some "b") :=
  ⟨rfl, rfl, rfl, rfl⟩

/-- C5 (amended): absence of the flag is treated as valid, not invalid:
`_layer_invalid` is `False` on a record without the metadata key, and the
background scan only ever selects a record whose flag is explicitly
`False`. -/
theorem c5_amended :
    (∀ ly : LayerRec, ly.valid? = none → layer_invalid ly = false) ∧
    (∀ (fuel : Nat) (st : MgrState) (items : List String) (n : String),
      search_first_invalid_layer st fuel items = .ok (some n) →
      ∃ ly, alookup st.layers n = some ly ∧ ly.valid? = some false) := by
  constructor
  · intro ly h
    unfold layer_invalid
    rw [h]
  · intro fuel st items n h
    exact search_selects_invalid h

/-- C5 witness: the amended statement at the concrete flag-less record and
at the concrete scan that selects the explicitly-invalid `b`. -/
theorem c5_witness :
    layer_invalid ⟨.arr [7], none⟩ = false ∧
    ∃ ly, alookup exSt5f.layers "b" = some ly ∧ ly.valid? = some false :=
  ⟨c5_amended.1 ⟨.arr [7], none⟩ rfl, c5_amended.2 5 exSt5f ["a"] "b" rfl⟩

/-- C6 (code bug, evaluated at the failing input): with the edge `a → b`,
both records present and valid, the data-updated event on `a` returns the
state entirely unchanged: `a` is (re)marked valid, but the direct follower
`b` — which has a record — keeps its flag `True`, because the handler only
invalidates the followers of each follower and never touches the follower
itself (the fetched layer variable is unused in the source). -/
theorem c6_theorem :
    layer_data_updated 9 exSt6 "a" = .ok exSt6 ∧
    Workflow.followers_of exG2 "a" = .ok ["b"] ∧
    viewer_has_layer exSt6.layers "b" = true ∧
    alookup exSt6.layers "b" = some ⟨.arr [2], some true⟩ :=
  ⟨rfl, rfl, rfl, rfl⟩

/-- C7: evaluating a name with no recipe fails with the `NotFound` error
(`KeyError`), and evaluating a name whose recipe is a literal returns that
literal unchanged (evaluator modelled from the spec, as `dask_get` comes
from the external dask library). -/
theorem c7_theorem :
    ∀ (FT : FuncTable) (g : Graph) (name : String) (fuel : Nat),
      (alookup g name = none → Workflow.get FT (fuel+1) g name = .error .keyError) ∧
      (∀ v, alookup g name = some (.literal v) →
        Workflow.get FT (fuel+1) g name = .ok v) := by
  intro FT g name fuel
  constructor
  · intro h
    rw [Workflow.get]
    simp only [h]
  · intro v h
    rw [Workflow.get]
    simp only [h]

/-- C7 witness: the evaluator contract at a one-literal graph. -/
theorem c7_witness :
    Workflow.get exFT 3 exG7 "y" = .error .keyError ∧
    Workflow.get exFT 3 exG7 "x" = .ok (.int 5) :=
  ⟨(c7_theorem exFT exG7 "y" 2).1 rfl, (c7_theorem exFT exG7 "x" 2).2 (.int 5) rfl⟩

theorem bindOk_length {r : Except PyErr (List PyVal)} {v : PyVal}
    {bound : List PyVal} (h : bindOk r v = .ok bound) :
    ∃ vs, r = .ok vs ∧ bound = v :: vs := by
  cases r with
  | error e => cases h
  | ok vs =>
    unfold bindOk at h
    cases h
    exact ⟨vs, rfl, rfl⟩

theorem bindMissing_length {kwargs : List (String × PyVal)} {pname : String}
    {dflt : Option PyVal} {r : Except PyErr (List PyVal)} {bound : List PyVal}
    (h : bindMissing kwargs pname dflt r = .ok bound) :
    ∃ v vs, r = .ok vs ∧ bound = v :: vs := by
  unfold bindMissing at h
  cases hl : alookup kwargs pname with
  | some v =>
    simp only [hl] at h
    obtain ⟨vs, hr, hb⟩ := bindOk_length h
    exact ⟨v, vs, hr, hb⟩
  | none =>
    simp only [hl] at h
    cases dflt with
    | some d =>
      obtain ⟨vs, hr, hb⟩ := bindOk_length h
      exact ⟨d, vs, hr, hb⟩
    | none => cases h

theorem signatureBindGo_length :
    ∀ {params : List (String × Option PyVal)} {args : List PyVal}
      {kwargs : List (String × PyVal)} {bound : List PyVal},
      signatureBindGo args kwargs params = .ok bound → bound.length = params.length := by
  intro params
  induction params with
  | nil =>
    intro args kwargs bound h
    cases args with
    | nil => rw [signatureBindGo] at h; cases h; rfl
    | cons a arest => rw [signatureBindGo] at h; cases h
  | cons p prest ih =>
    intro args kwargs bound h
    obtain ⟨pname, dflt⟩ := p
    cases args with
    | cons a arest =>
      rw [signatureBindGo] at h
      by_cases hkw : (alookup kwargs pname).isSome = true
      · rw [if_pos hkw] at h
        cases h
      · rw [if_neg hkw] at h
        obtain ⟨vs, hgo, hb⟩ := bindOk_length h
        subst hb
        simp [ih hgo]
    | nil =>
      rw [signatureBindGo] at h
      obtain ⟨v, vs, hgo, hb⟩ := bindMissing_length h
      subst hb
      simp [ih hgo]

theorem alookup_map_set (g : Graph) (name : String) (t : PyTask)
    (hs : (alookup g name).isSome = true) :
    alookup (g.map (fun p => (p.1, if p.1 = name then t else p.2))) name = some t := by
  induction g with
  | nil => simp [alookup] at hs
  | cons p rest ih =>
    obtain ⟨k, v⟩ := p
    simp only [List.map_cons]
    by_cases hk : k = name
    · subst hk
      simp [alookup]
    · simp only [alookup, hk, if_false]
      simp only [alookup, hk, if_false] at hs
      exact ih hs

theorem alookup_append_self (g : Graph) (name : String) (t : PyTask)
    (hs : alookup g name = none) :
    alookup (g ++ [(name, t)]) name = some t := by
  induction g with
  | nil => simp [alookup]
  | cons p rest ih =>
    obtain ⟨k, v⟩ := p
    by_cases hk : k = name
    · subst hk
      simp [alookup] at hs
    · simp only [List.cons_append, alookup, hk, if_false]
      apply ih
      simpa [alookup, hk] using hs

theorem alookup_dictSet_self (g : Graph) (name : String) (t : PyTask) :
    alookup (dictSet g name t) name = some t := by
  unfold dictSet
  by_cases hs : (alookup g name).isSome = true
  · rw [if_pos hs]
    exact alookup_map_set g name t hs
  · rw [if_neg hs]
    apply alookup_append_self
    cases h : alookup g name with
    | none => rfl
    | some v => rw [h] at hs; simp at hs

theorem mem_alookup_isSome {α : Type} {g : List (String × α)} {k : String} {v : α}
    (h : (k, v) ∈ g) : (alookup g k).isSome = true := by
  induction g with
  | nil => simp at h
  | cons p rest ih =>
    obtain ⟨k', v'⟩ := p
    rcases List.mem_cons.mp h with heq | hm
    · cases heq
      simp [alookup]
    · by_cases hk : k' = k
      · subst hk
        simp [alookup]
      · simp only [alookup, hk, if_false]
        exact ih hm

theorem followersGo_mem (item m : String) :
    ∀ (g : Graph) (acc fl : List String),
      Workflow.followersGo item g acc = .ok fl →
      (m ∈ fl ↔ m ∈ acc ∨
        ∃ t es, (m, t) ∈ g ∧ taskIter t = .ok es ∧ item ∈ stringElems es) := by
  intro g
  induction g with
  | nil =>
    intro acc fl h
    cases h
    simp
  | cons p rest ih =>
    intro acc fl h
    obtain ⟨result, task⟩ := p
    rw [Workflow.followersGo] at h
    cases hit : taskIter task with
    | error e => simp only [hit] at h; cases h
    | ok es =>
      simp only [hit] at h
      by_cases hin : item ∈ stringElems es
      · rw [if_pos hin] at h
        by_cases hres : result ∈ acc
        · rw [if_pos hres] at h
          rw [ih acc fl h]
          constructor
          · rintro (hm | ⟨t, es', hmem, hti, hstr⟩)
            · exact Or.inl hm
            · exact Or.inr ⟨t, es', List.mem_cons_of_mem _ hmem, hti, hstr⟩
          · rintro (hm | ⟨t, es', hmem, hti, hstr⟩)
            · exact Or.inl hm
            · rcases List.mem_cons.mp hmem with heq | hmem'
              · injection heq with h1 h2
                subst h1
                exact Or.inl hres
              · exact Or.inr ⟨t, es', hmem', hti, hstr⟩
        · rw [if_neg hres] at h
          rw [ih (acc ++ [result]) fl h]
          constructor
          · rintro (hm | ⟨t, es', hmem, hti, hstr⟩)
            · rcases List.mem_append.mp hm with hm' | hm'
              · exact Or.inl hm'
              · have hm2 : m = result := by simpa using hm'
                subst hm2
                exact Or.inr ⟨task, es, List.mem_cons_self _ _, hit, hin⟩
            · exact Or.inr ⟨t, es', List.mem_cons_of_mem _ hmem, hti, hstr⟩
          · rintro (hm | ⟨t, es', hmem, hti, hstr⟩)
            · exact Or.inl (List.mem_append.mpr (Or.inl hm))
            · rcases List.mem_cons.mp hmem with heq | hmem'
              · injection heq with h1 h2
                subst h1
                exact Or.inl (List.mem_append.mpr (Or.inr (by simp)))
              · exact Or.inr ⟨t, es', hmem', hti, hstr⟩
      · rw [if_neg hin] at h
        rw [ih acc fl h]
        constructor
        · rintro (hm | ⟨t, es', hmem, hti, hstr⟩)
          · exact Or.inl hm
          · exact Or.inr ⟨t, es', List.mem_cons_of_mem _ hmem, hti, hstr⟩
        · rintro (hm | ⟨t, es', hmem, hti, hstr⟩)
          · exact Or.inl hm
          · rcases List.mem_cons.mp hmem with heq | hmem'
            · injection heq with h1 h2
              subst h2
              rw [hit] at hti
              injection hti with hes
              subst hes
              exact absurd hstr hin
            · exact Or.inr ⟨t, es', hmem', hti, hstr⟩

/-- C8: `set(name, f, args…)` immediately followed by `get_task(name)`
returns the tuple `(f, bound_arg_0, …)` with declared defaults applied for
omitted parameters, exactly one bound argument per declared parameter in
declaration order, and with any prior recipe for `name` fully replaced
(the conclusion holds for every prior graph `g`). -/
theorem c8_theorem :
    ∀ (FT : FuncTable) (g : Graph) (name : String) (fid : Nat)
      (args : List PyVal) (kwargs : List (String × PyVal)) (bound : List PyVal)
      (g' : Graph),
      signatureBind (FT fid).params args kwargs = .ok bound →
      Workflow.set FT g name (.func fid) args kwargs = .ok g' →
      Workflow.get_task g' name = .ok (.tuple (.func fid :: bound)) ∧
      bound.length = (FT fid).params.length := by
  intro FT g name fid args kwargs bound g' hbind hset
  rw [Workflow.set] at hset
  simp only [hbind] at hset
  cases hset
  constructor
  · rw [Workflow.get_task, alookup_dictSet_self]
  · unfold signatureBind at hbind
    by_cases hkw : (kwargs.any fun kv => (FT fid).params.all fun p => p.1 != kv.1) = true
    · rw [if_pos hkw] at hbind
      cases hbind
    · rw [if_neg hkw] at hbind
      exact signatureBindGo_length hbind

/-- C8 witness: overwriting the literal recipe for `n` with `f2(1)` where
`f2(x, y=5)`, then reading the task back. -/
theorem c8_witness :
    Workflow.get_task exC8G' "n" = .ok (.tuple [.func 2, .int 1, .int 5]) ∧
    ([PyVal.int 1, PyVal.int 5] : List PyVal).length = (exFT 2).params.length :=
  c8_theorem exFT exC8G "n" 2 [.int 1] [] [.int 1, .int 5] exC8G' rfl rfl

/-- C9: `followers_of` and `sources_of` are inverse relations whenever both
queries succeed: `m ∈ followers_of(n)` iff `n ∈ sources_of(m)` (stated for
graphs with distinct keys, as holds of every Python dict). -/
theorem c9_theorem :
    ∀ (g : Graph) (m n : String) (fl sl : List String),
      (keysOf g).Nodup →
      Workflow.followers_of g n = .ok fl →
      Workflow.sources_of g m = .ok sl →
      (m ∈ fl ↔ n ∈ sl) := by
  intro g m n fl sl hnd hfol hsrc
  rw [Workflow.followers_of] at hfol
  have hmem := followersGo_mem n m g [] fl hfol
  rw [Workflow.sources_of] at hsrc
  cases hl : alookup g m with
  | none =>
    simp only [hl] at hsrc
    cases hsrc
    rw [hmem]
    simp only [List.not_mem_nil, false_or, iff_false]
    rintro ⟨t, es, hmemg, _, _⟩
    have := mem_alookup_isSome hmemg
    rw [hl] at this
    cases this
  | some task =>
    simp only [hl] at hsrc
    cases hti : taskIter task with
    | error e => simp only [hti] at hsrc; cases hsrc
    | ok es =>
      simp only [hti] at hsrc
      cases hsrc
      rw [hmem]
      simp only [List.not_mem_nil, false_or]
      constructor
      · rintro ⟨t, es', hmemg, hti', hstr⟩
        have hteq := mem_alookup hnd hmemg
        rw [hl] at hteq
        injection hteq with hteq
        subst hteq
        rw [hti] at hti'
        injection hti' with hes
        subst hes
        exact hstr
      · intro hn
        exact ⟨task, es, alookup_mem hl, hti, hn⟩

/-- C9 witness: the inverse relation at the concrete edge `a → b`. -/
theorem c9_witness :
    ("b" ∈ (["b"] : List String)) ↔ "a" ∈ (["a"] : List String) :=
  c9_theorem exG2 "b" "a" ["b"] ["a"] (by decide) rfl rfl

/-- C10: no query or invalidation touches the recipe dict: `roots`,
`followers_of`, `sources_of`, `leafs` and `get_task` return the manager
state unchanged, and every successful `invalidate` run preserves the
workflow component (it writes only layer metadata); only `set` and `remove`
rewrite the stored recipes. -/
theorem c10_theorem :
    (∀ (st : MgrState) (r : List String) (st2 : MgrState),
      rootsM st = .ok (r, st2) → st2.workflow = st.workflow) ∧
    (∀ (st : MgrState) (i : String) (r : List String) (st2 : MgrState),
      followers_ofM st i = .ok (r, st2) → st2.workflow = st.workflow) ∧
    (∀ (st : MgrState) (i : String) (r : List String) (st2 : MgrState),
      sources_ofM st i = .ok (r, st2) → st2.workflow = st.workflow) ∧
    (∀ (st : MgrState) (r : List String) (st2 : MgrState),
      leafsM st = .ok (r, st2) → st2.workflow = st.workflow) ∧
    (∀ (st : MgrState) (nm : String) (t : PyTask) (st2 : MgrState),
      get_taskM st nm = .ok (t, st2) → st2.workflow = st.workflow) ∧
    (∀ (fuel : Nat) (st : MgrState) (items : List String) (st' : MgrState),
      invalidate fuel st items = .ok st' → st'.workflow = st.workflow) := by
  refine ⟨?_, ?_, ?_, ?_, ?_, ?_⟩
  · intro st r st2 h
    unfold rootsM at h
    cases hq : Workflow.roots st.workflow with
    | error e => simp only [hq] at h; cases h
    | ok rr =>
      simp only [hq] at h
      cases h
      rfl
  · intro st i r st2 h
    unfold followers_ofM at h
    cases hq : Workflow.followers_of st.workflow i with
    | error e => simp only [hq] at h; cases h
    | ok rr =>
      simp only [hq] at h
      cases h
      rfl
  · intro st i r st2 h
    unfold sources_ofM at h
    cases hq : Workflow.sources_of st.workflow i with
    | error e => simp only [hq] at h; cases h
    | ok rr =>
      simp only [hq] at h
      cases h
      rfl
  · intro st r st2 h
    unfold leafsM at h
    cases hq : Workflow.leafs st.workflow with
    | error e => simp only [hq] at h; cases h
    | ok rr =>
      simp only [hq] at h
      cases h
      rfl
  · intro st nm t st2 h
    unfold get_taskM at h
    cases hq : Workflow.get_task st.workflow nm with
    | error e => simp only [hq] at h; cases h
    | ok tt =>
      simp only [hq] at h
      cases h
      rfl
  · intro fuel st items st' h
    exact (invalidate_evol fuel st items st' h).1

/-- C10 witness: each query applied at a concrete state, and a concrete
`invalidate` run whose result state keeps the same workflow. -/
theorem c10_witness :
    exSt6.workflow = exSt6.workflow ∧ exSt6.workflow = exSt6.workflow ∧
    exSt6.workflow = exSt6.workflow ∧ exSt6.workflow = exSt6.workflow ∧
    exSt6.workflow = exSt6.workflow ∧ exSt1'.workflow = exSt1.workflow :=
  ⟨c10_theorem.1 exSt6 ["a"] exSt6 rfl,
   c10_theorem.2.1 exSt6 "a" ["b"] exSt6 rfl,
   c10_theorem.2.2.1 exSt6 "b" ["a"] exSt6 rfl,
   c10_theorem.2.2.2.1 exSt6 ["b"] exSt6 rfl,
   c10_theorem.2.2.2.2.1 exSt6 "b" (.tuple [.func 0, .str "a"]) exSt6 rfl,
   c10_theorem.2.2.2.2.2 9 exSt1 ["a"] exSt1' rfl⟩
